import Mathlib

/-!
Verification of the decaying user-event subsystem, the wildcard matchers,
the job-tree integrity resolver and the plugin-config resolver of the
IntelOwl repository, embedded shallowly in Lean.

Timestamps are modelled as integers counting days, so that adding a
`timedelta(days = k)` is integer addition of `k`.  Query sets are modelled
as lists of rows; bulk updates are modelled as producing the updated list.
-/

namespace IntelOwl

/-- `DecayProgressionEnum` from `api_app/user_events_manager/choices.py`. -/
inductive DecayProgressionEnum where
  | FIXED
  | LINEAR
  | INVERSE_EXPONENTIAL
deriving DecidableEq, Repr

/-- `Classification` choices used by analyzables (`api_app/choices.py`). -/
inductive Classification where
  | DOMAIN
  | URL
  | IP
  | HASH
  | GENERIC
deriving DecidableEq, Repr

/-- The data-model record linked to a user event: only its `reliability`
integer matters to this subsystem.  Modelled as `Int` because the source
decrements it with plain integer arithmetic. -/
structure DataModel where
  reliability : Int
deriving DecidableEq, Repr

/-- A user owning events: identity plus the organization id of their
membership when they have one (`user.membership.organization_id`). -/
structure User where
  id : Nat
  membership_org : Option Nat
deriving DecidableEq, Repr

/-- `user.has_membership()`. -/
def User.has_membership (u : User) : Bool :=
  u.membership_org.isSome

/-- A row of a `UserEventQuerySet`: the fields of the abstract user event
touched by `queryset.py` (`decay`, `visible_for_user`, `create`).
`next_decay` is a nullable timestamp; `data_model` is the linked
data-model record (nullable, since `decay` guards `data_model is None`). -/
structure UserEvent where
  id : Nat
  user : User
  date : Int
  decay_progression : DecayProgressionEnum
  decay_timedelta_days : Nat
  decay_times : Nat
  next_decay : Option Int
  data_model : Option DataModel
deriving DecidableEq, Repr

/-- The eligibility filter of `UserEventQuerySet.decay`:
`exclude(decay_progression=FIXED).exclude(next_decay__isnull=True)
.filter(next_decay__lte=now())`. -/
def eligible (now : Int) (e : UserEvent) : Bool :=
  decide (e.decay_progression ≠ DecayProgressionEnum.FIXED) &&
    match e.next_decay with
    | none => false
    | some t => decide (t ≤ now)

/-- The loop body of `UserEventQuerySet.decay` applied to one selected
event: increment `decay_times`, decrement the linked data model's
`reliability`, then recompute `next_decay` (null when the data model is
absent or its reliability is exactly 0; otherwise advanced by
`decay_timedelta_days` days for LINEAR and by
`decay_timedelta_days ** (decay_times + 1)` days — with `decay_times`
already incremented — for INVERSE_EXPONENTIAL). -/
def decayStep (e : UserEvent) : UserEvent :=
  let dt := e.decay_times + 1
  let dm := e.data_model.map (fun d => { d with reliability := d.reliability - 1 })
  let nd : Option Int :=
    match dm with
    | none => none
    | some d =>
      if d.reliability = 0 then none
      else if e.decay_progression = DecayProgressionEnum.LINEAR then
        e.next_decay.map (fun t => t + (e.decay_timedelta_days : Int))
      else if e.decay_progression = DecayProgressionEnum.INVERSE_EXPONENTIAL then
        e.next_decay.map (fun t => t + ((e.decay_timedelta_days ^ (dt + 1) : Nat) : Int))
      else
        e.next_decay
  { e with decay_times := dt, data_model := dm, next_decay := nd }

/-- `UserEventQuerySet.decay`: select the eligible events, apply the loop
body to each, bulk-write the result back, and return the number of events
decayed.  The first component is the queryset's rows after the call; the
second is the returned count `len(events)`. -/
def decay (now : Int) (events : List UserEvent) : List UserEvent × Nat :=
  (events.map (fun e => if eligible now e then decayStep e else e),
   (events.filter (eligible now)).length)

/-- `UserEventQuerySet.visible_for_user`: own events always; when the user
has a membership, also events whose owner belongs to the same
organization (the `user__membership__organization_id` join fails for
owners with no membership). -/
def visible_for_user (u : User) (events : List UserEvent) : List UserEvent :=
  if u.has_membership then
    events.filter (fun e =>
      decide (e.user = u) ||
        decide (e.user.membership_org = u.membership_org))
  else
    events.filter (fun e => decide (e.user = u))

/-- `UserEventQuerySet.create`: build the object from the passed fields,
set `next_decay = date + decay_timedelta_days` when the linked data
model's reliability is nonzero, then insert.  The source dereferences
`obj.data_model.reliability` without a null check, so an absent data
model is a failure (`none`). -/
def create (e : UserEvent) : Option UserEvent :=
  match e.data_model with
  | none => none
  | some dm =>
    if dm.reliability ≠ 0 then
      some { e with next_decay := some (e.date + (e.decay_timedelta_days : Int)) }
    else
      some e

/-- An analyzable: a classified indicator, read-only to this core. -/
structure Analyzable where
  name : String
  classification : Classification
deriving DecidableEq, Repr

/-- A row of `UserDomainWildCardEventQuerySet`: a user event carrying a
regex `query`. -/
structure UserDomainWildCardEvent extends UserEvent where
  query : String
deriving DecidableEq, Repr

/-- A row of `UserIPWildCardEventQuerySet`: a user event carrying an
inclusive IP range.  IP values are modelled as natural numbers (the
database compares `inet` values totally). -/
structure UserIPWildCardEvent extends UserEvent where
  start_ip : Nat
  end_ip : Nat
deriving DecidableEq, Repr

/-- `UserDomainWildCardEventQuerySet.matches`: when the analyzable is
classified DOMAIN or URL, keep the events whose `query` regex matches the
analyzable's name (the database `IRegex` primitive is passed in as
`regexMatch name pattern`); for any other classification return
`self.none()` without evaluating any regex. -/
def domainMatches (regexMatch : String → String → Bool)
    (events : List UserDomainWildCardEvent) (a : Analyzable) :
    List UserDomainWildCardEvent :=
  if a.classification = Classification.DOMAIN ∨
      a.classification = Classification.URL then
    events.filter (fun e => regexMatch a.name e.query)
  else
    []

/-- `UserIPWildCardEventQuerySet.matches`: when the analyzable is
classified IP, keep the events whose inclusive `[start_ip, end_ip]` range
contains the analyzable's parsed IP value (the database parse of the
`inet` literal is passed in as `parseIP`); otherwise return
`self.none()`. -/
def ipMatches (parseIP : String → Nat)
    (events : List UserIPWildCardEvent) (a : Analyzable) :
    List UserIPWildCardEvent :=
  if a.classification = Classification.IP then
    events.filter (fun e =>
      decide (e.start_ip ≤ parseIP a.name) && decide (parseIP a.name ≤ e.end_ip))
  else
    []

/-- Modelled from the spec: `find_new_analyzables_from_query` on the
wildcard event models (`api_app/user_events_manager/models.py`, not under
`src/`) — after the base creation the new rule "finds all
currently-existing analyzables matching the new rule"; matching is
classification-gated exactly as in `matches` (domain variant). -/
def domainFindNewAnalyzables (regexMatch : String → String → Bool)
    (analyzables : List Analyzable) (e : UserDomainWildCardEvent) :
    List Analyzable :=
  analyzables.filter (fun a =>
    decide (a.classification = Classification.DOMAIN ∨
      a.classification = Classification.URL) && regexMatch a.name e.query)

/-- Modelled from the spec: `find_new_analyzables_from_query` for the IP
variant (`api_app/user_events_manager/models.py`, not under `src/`) —
all currently-existing IP-classified analyzables whose parsed value lies
in the rule's inclusive range. -/
def ipFindNewAnalyzables (parseIP : String → Nat)
    (analyzables : List Analyzable) (e : UserIPWildCardEvent) :
    List Analyzable :=
  analyzables.filter (fun a =>
    decide (a.classification = Classification.IP) &&
      (decide (e.start_ip ≤ parseIP a.name) && decide (parseIP a.name ≤ e.end_ip)))

/-- `UserDomainWildCardEventQuerySet.create`: base creation, then attach
every pre-existing analyzable returned by
`find_new_analyzables_from_query` in one batch.  The result pairs the
created event with the attached analyzables. -/
def domainCreate (regexMatch : String → String → Bool)
    (analyzables : List Analyzable) (e : UserDomainWildCardEvent) :
    Option (UserDomainWildCardEvent × List Analyzable) :=
  (create e.toUserEvent).map (fun base =>
    let inst : UserDomainWildCardEvent := { e with toUserEvent := base }
    (inst, domainFindNewAnalyzables regexMatch analyzables inst))

/-- `UserIPWildCardEventQuerySet.create`: base creation, then attach every
pre-existing analyzable returned by `find_new_analyzables_from_query` in
one batch. -/
def ipCreate (parseIP : String → Nat)
    (analyzables : List Analyzable) (e : UserIPWildCardEvent) :
    Option (UserIPWildCardEvent × List Analyzable) :=
  (create e.toUserEvent).map (fun base =>
    let inst : UserIPWildCardEvent := { e with toUserEvent := base }
    (inst, ipFindNewAnalyzables parseIP analyzables inst))

/-- A plugin parameter definition (`Parameter`): name, whether it is
required, whether it is a secret. -/
structure Parameter where
  name : String
  required : Bool
  is_secret : Bool
deriving DecidableEq, Repr

/-- The resolution state of one parameter of a config for a given user:
`resolved_for_user` is the value resolvable for that user (user-owned
override, then organization override, then non-secret default), and
`stored_value` is any stored value at all, even one not properly scoped
to the user (the CI relaxation looks at this). -/
structure ParamResolution where
  param : Parameter
  resolved_for_user : Option String
  stored_value : Option String
deriving DecidableEq, Repr

/-- Modelled from the spec: `AbstractConfig.read_configured_params`
(`api_app/models.py`, not under `src/`).  Walks the config's parameters;
when a required parameter has no value resolvable for the user — unless
the CI/staging flag is active and the parameter nonetheless has some
stored value — it raises a `TypeError` whose message names the offending
parameter; otherwise it returns the resolved values. -/
def read_configured_params (stageCI : Bool) (params : List ParamResolution) :
    Except String (List (String × String)) :=
  match params.find? (fun p =>
      p.param.required && p.resolved_for_user.isNone &&
        (!stageCI || p.stored_value.isNone)) with
  | some p => Except.error ("Required param " ++ p.param.name ++ " not found")
  | none =>
    Except.ok (params.filterMap (fun p =>
      p.resolved_for_user.map (fun v => (p.param.name, v))))

/-- A job row: primary key and materialized tree path, modelled as the
sequence of fixed-width steps (the source stores it as a string of
`steplen`-character chunks; one list entry stands for one chunk).  The
root's path is the first step of every descendant's path. -/
structure Job where
  pk : Nat
  path : List Nat
deriving DecidableEq, Repr

/-- `Job.is_root`: true iff the job has no parent, i.e. its path is a
single step. -/
def Job.is_root (j : Job) : Bool :=
  j.path.length = 1

/-- The result of `get_root`: the resolved root (none only when the
fallback query finds no job at all) and the warnings logged. -/
structure GetRootResult where
  root : Option Job
  warnings : List String
deriving DecidableEq, Repr

/-- `order_by("pk").first()`: the element with the smallest primary key,
`none` on an empty queryset. -/
def firstByPk : List Job → Option Job
  | [] => none
  | j :: js =>
    match firstByPk js with
    | none => some j
    | some r => if j.pk ≤ r.pk then some j else some r

/-- Modelled from the spec: `Job.get_root` (`api_app/models.py`, not
under `src/`).  Primary path delegates to the tree library's native root
lookup (`treeLookup`, which either returns a job or raises a
multiple-roots error carrying a message).  On that error, do not
propagate: log one warning containing the original exception text, then
fall back to a pure read — filter jobs sharing the root path prefix,
order by primary key ascending, take the first. -/
def get_root (jobs : List Job) (job : Job)
    (treeLookup : Except String Job) : GetRootResult :=
  match treeLookup with
  | Except.ok r => { root := some r, warnings := [] }
  | Except.error msg =>
    let rootPath := job.path.take 1
    let candidates := jobs.filter (fun j => rootPath.isPrefixOf j.path)
    { root := firstByPk candidates,
      warnings := ["Tree Integrity Error: " ++ msg] }

/-- A plugin config row as seen by `get_signatures`: its name, whether it
is disabled, and whether it is annotated runnable for the job's user. -/
structure PluginConfigRow where
  name : String
  disabled : Bool
  runnable : Bool
deriving DecidableEq, Repr

/-- The two distinguishable error classes raised while generating
signatures: the soft skip signal (a `RuntimeWarning` in the source) and
the hard runnability defect (a `RuntimeError`). -/
inductive SigError where
  | runtimeWarning (msg : String)
  | runtimeError (msg : String)
deriving DecidableEq, Repr

/-- An executable signature: the target config, the job's user and the
job reference. -/
structure Signature where
  configName : String
  userId : Nat
  jobId : Nat
deriving DecidableEq, Repr

/-- A job reference as needed by signature generation. -/
structure JobRef where
  jobId : Nat
  userId : Nat
deriving DecidableEq, Repr

/-- Modelled from the spec: `get_signatures` (`api_app/models.py`, not
under `src/`).  For each config reached by the generator: if disabled,
raise the warning-class skip signal; if not runnable for the job's user
(but not explicitly disabled), raise the runtime-error-class defect;
otherwise yield one signature.  Each reached config produces exactly one
outcome — the generator raises instead of silently stopping. -/
def get_signatures (job : JobRef) (configs : List PluginConfigRow) :
    List (Except SigError Signature) :=
  configs.map (fun c =>
    if c.disabled then
      Except.error (SigError.runtimeWarning (c.name ++ " is disabled"))
    else if !c.runnable then
      Except.error (SigError.runtimeError (c.name ++ " is not runnable"))
    else
      Except.ok { configName := c.name, userId := job.userId, jobId := job.jobId })

/-! Sample concrete rows used to instantiate the theorems. -/

/-- A data model with the given reliability. -/
def dmOf (r : Int) : DataModel := { reliability := r }

/-- A user with no organization membership. -/
def soloUser : User := { id := 1, membership_org := none }

/-- A FIXED event whose `next_decay` is forced into the past. -/
def evFixedPast : UserEvent :=
  { id := 1, user := soloUser, date := 0,
    decay_progression := DecayProgressionEnum.FIXED, decay_timedelta_days := 0,
    decay_times := 0, next_decay := some (-1), data_model := some (dmOf 8) }

/-- An INVERSE_EXPONENTIAL event, `decay_timedelta_days = 2`,
`decay_times = 0`, due at time 0. -/
def evInvExp : UserEvent :=
  { id := 2, user := soloUser, date := 0,
    decay_progression := DecayProgressionEnum.INVERSE_EXPONENTIAL,
    decay_timedelta_days := 2,
    decay_times := 0, next_decay := some 0, data_model := some (dmOf 8) }

/-- A LINEAR event whose linked data model has reliability 0 while its
`next_decay` is nonetheless non-null and due. -/
def evZeroRel : UserEvent :=
  { id := 3, user := soloUser, date := 0,
    decay_progression := DecayProgressionEnum.LINEAR, decay_timedelta_days := 7,
    decay_times := 0, next_decay := some (-1), data_model := some (dmOf 0) }

/-- A due LINEAR event with reliability 8. -/
def evLinear : UserEvent :=
  { id := 4, user := soloUser, date := 0,
    decay_progression := DecayProgressionEnum.LINEAR, decay_timedelta_days := 7,
    decay_times := 0, next_decay := some (-1), data_model := some (dmOf 8) }

/-- Field values passed to `create` for a FIXED event with nonzero
reliability (default null `next_decay`). -/
def evFixedNew : UserEvent :=
  { id := 5, user := soloUser, date := 0,
    decay_progression := DecayProgressionEnum.FIXED, decay_timedelta_days := 3,
    decay_times := 0, next_decay := none, data_model := some (dmOf 8) }

/-- Field values passed to `create` for a LINEAR event with nonzero
reliability. -/
def evLinearNew : UserEvent :=
  { id := 6, user := soloUser, date := 0,
    decay_progression := DecayProgressionEnum.LINEAR, decay_timedelta_days := 7,
    decay_times := 0, next_decay := none, data_model := some (dmOf 8) }

/-- The row `create` inserts for `evLinearNew`. -/
def evLinearCreated : UserEvent :=
  { evLinearNew with next_decay := some 7 }

/-- An IP-classified analyzable. -/
def anIP : Analyzable := { name := "1.2.3.5", classification := Classification.IP }

/-- A DOMAIN-classified analyzable, `a.test.com`. -/
def anDomain : Analyzable :=
  { name := "a.test.com", classification := Classification.DOMAIN }

/-- Field values for a domain-wildcard rule with pattern `.*\.test.com`. -/
def evDomainRule : UserDomainWildCardEvent :=
  { id := 7, user := soloUser, date := 0,
    decay_progression := DecayProgressionEnum.FIXED, decay_timedelta_days := 0,
    decay_times := 0, next_decay := none, data_model := some (dmOf 8),
    query := ".*\\.test.com" }

/-- The domain-wildcard rule row inserted by `create` for
`evDomainRule` (reliability 8 is nonzero, so `next_decay = date + 0`). -/
def evDomainRuleCreated : UserDomainWildCardEvent :=
  { evDomainRule with next_decay := some 0 }

/-- Field values for an IP-wildcard rule over the range `[100, 200]`. -/
def evIPRule : UserIPWildCardEvent :=
  { id := 8, user := soloUser, date := 0,
    decay_progression := DecayProgressionEnum.FIXED, decay_timedelta_days := 0,
    decay_times := 0, next_decay := none, data_model := some (dmOf 8),
    start_ip := 100, end_ip := 200 }

/-- A concrete stand-in for the database regex primitive, evaluated on
the round-trip example: `a.test.com` matches `.*\.test.com`. -/
def regexMatchSample (name pat : String) : Bool :=
  name == "a.test.com" && pat == ".*\\.test.com"

/-- A required, secret parameter with no value anywhere. -/
def pReqMissing : ParamResolution :=
  { param := { name := "apikey", required := true, is_secret := true },
    resolved_for_user := none, stored_value := none }

/-- The root job of a two-node lineage. -/
def rootJob : Job := { pk := 1, path := [1] }

/-- The child of `rootJob` in the materialized-path tree. -/
def childJob : Job := { pk := 2, path := [1, 1] }

/-- A disabled plugin config row. -/
def cfgDisabled : PluginConfigRow :=
  { name := "viz", disabled := true, runnable := false }

/-- A job reference for signature generation. -/
def sampleJobRef : JobRef := { jobId := 10, userId := 1 }

/-! Helper lemmas shared by the claim theorems. -/

/-- Every pair of a list zipped with its image under `f` relates by `f`. -/
theorem zip_map_snd {α β : Type} (f : α → β) :
    ∀ (l : List α) (p : α × β), p ∈ l.zip (l.map f) → p.2 = f p.1 := by
  intro l
  induction l with
  | nil => intro p hp; cases hp
  | cons x xs ih =>
    intro p hp
    rw [List.map_cons, List.zip_cons_cons, List.mem_cons] at hp
    rcases hp with rfl | hp
    · rfl
    · exact ih p hp

/-- Unfolding of the eligibility predicate of `decay`. -/
theorem eligible_iff (now : Int) (e : UserEvent) :
    eligible now e = true ↔
      (e.decay_progression ≠ DecayProgressionEnum.FIXED ∧
        ∃ t, e.next_decay = some t ∧ t ≤ now) := by
  unfold eligible
  cases h : e.next_decay with
  | none => simp [h]
  | some t => simp [h]

/-- An eligible event's row after `decay` is `decayStep` of the old row;
an ineligible event's row is unchanged. -/
theorem decay_row (now : Int) (events : List UserEvent) (p : UserEvent × UserEvent)
    (hp : p ∈ events.zip (decay now events).1) :
    p.2 = if eligible now p.1 then decayStep p.1 else p.1 :=
  zip_map_snd (fun e => if eligible now e then decayStep e else e) events p hp

/-- The dormancy invariant in the words of the spec: `next_decay` is
null iff the event is FIXED or its associated data model's reliability
is 0 (an absent data model counts as exhausted). -/
def dormancyInvariant (e : UserEvent) : Bool :=
  e.next_decay.isNone ==
    (decide (e.decay_progression = DecayProgressionEnum.FIXED) ||
      (match e.data_model with
       | none => true
       | some dm => decide (dm.reliability = 0)))

/-- C3: `decay` selects exactly the events whose progression differs from
FIXED, whose `next_decay` is non-null and due (`≤ now`); every other
event's row is left entirely unchanged; the call returns the number of
selected events — 0 when only ineligible events are present. -/
theorem decay_selection (now : Int) (events : List UserEvent) :
    (decay now events).2 = (events.filter (eligible now)).length ∧
    (∀ e : UserEvent, eligible now e = true ↔
      (e.decay_progression ≠ DecayProgressionEnum.FIXED ∧
        ∃ t, e.next_decay = some t ∧ t ≤ now)) ∧
    (∀ p ∈ events.zip (decay now events).1,
      eligible now p.1 = false → p.2 = p.1) ∧
    ((∀ e ∈ events, eligible now e = false) → (decay now events).2 = 0) := by
  refine ⟨rfl, fun e => eligible_iff now e, ?_, ?_⟩
  · intro p hp hfalse
    rw [decay_row now events p hp, hfalse]
    simp
  · intro hall
    have hnil : events.filter (eligible now) = [] := by
      rw [List.filter_eq_nil_iff]
      intro a ha
      simp [hall a ha]
    simp [decay, hnil]

/-- Witness for C3: a queryset holding only a FIXED event with a past
`next_decay` yields count 0. -/
theorem decay_selection_witness : (decay 0 [evFixedPast]).2 = 0 :=
  (decay_selection 0 [evFixedPast]).2.2.2 (by decide)

/-- C1 as stated is false: for the eligible INVERSE_EXPONENTIAL event
`evInvExp` (`decay_timedelta_days = 2`, old `next_decay = 0`), the decay
call leaves `decay_times = 1` but advances `next_decay` by
`2 ^ 2 = 4` days, not by `2 ^ 1 = 2` days as the claimed exponent
(`decay_times` after increment) would demand. -/
theorem decay_inv_exp_counterexample :
    eligible 0 evInvExp = true ∧
    (decay 0 [evInvExp]).2 = 1 ∧
    (decay 0 [evInvExp]).1 = [decayStep evInvExp] ∧
    (decayStep evInvExp).decay_times = 1 ∧
    (decayStep evInvExp).data_model = some (dmOf 7) ∧
    (decayStep evInvExp).next_decay = some ((0 : Int) + ((2 ^ 2 : Nat) : Int)) ∧
    (decayStep evInvExp).next_decay ≠ some ((0 : Int) + ((2 ^ 1 : Nat) : Int)) := by
  decide

/-- C1 (amended): for every event selected by a decay() call whose
progression is INVERSE_EXPONENTIAL and whose linked data model's
reliability is still nonzero after the decrement, the new `next_decay`
equals the old one plus `decay_timedelta_days ** (d + 1)` days, where `d`
is `decay_times` after its increment in this call. -/
theorem decay_inv_exp_schedule (now : Int) (events : List UserEvent)
    (p : UserEvent × UserEvent) (t : Int) (dm : DataModel)
    (hp : p ∈ events.zip (decay now events).1)
    (helig : eligible now p.1 = true)
    (hprog : p.1.decay_progression = DecayProgressionEnum.INVERSE_EXPONENTIAL)
    (hdm : p.1.data_model = some dm)
    (hrel : dm.reliability - 1 ≠ 0)
    (ht : p.1.next_decay = some t) :
    p.2.decay_times = p.1.decay_times + 1 ∧
    p.2.next_decay =
      some (t + ((p.1.decay_timedelta_days ^ (p.1.decay_times + 1 + 1) : Nat) : Int)) := by
  rw [decay_row now events p hp, if_pos helig]
  unfold decayStep
  simp [hdm, hprog, hrel, ht]

/-- Witness for C1 (amended) at `evInvExp`. -/
theorem decay_inv_exp_schedule_witness :
    (decayStep evInvExp).decay_times = 1 ∧
    (decayStep evInvExp).next_decay = some ((0 : Int) + ((2 ^ 2 : Nat) : Int)) := by
  have h := decay_inv_exp_schedule 0 [evInvExp] (evInvExp, decayStep evInvExp) 0 (dmOf 8)
    (by decide) (by decide) (by decide) (by decide) (by decide) (by decide)
  simpa using h

/-- C2 as stated is false: the eligible event `evZeroRel`, whose data
model's reliability is already 0 while `next_decay` is non-null and due,
is driven to reliability -1 by the decay call, not held at 0. -/
theorem decay_reliability_counterexample :
    eligible 0 evZeroRel = true ∧
    (decay 0 [evZeroRel]).2 = 1 ∧
    ((decay 0 [evZeroRel]).1.map (fun e => e.data_model)) = [some (dmOf (-1))] ∧
    dmOf (-1) ≠ dmOf 0 := by
  decide

/-- C2 (amended): for every decay() call and every event it selects with
a present data model, the reliability after the call equals the old value
minus 1 unconditionally — no floor at 0 is applied, so it stays
non-negative exactly when the old value was at least 1. -/
theorem decay_reliability_decrement (now : Int) (events : List UserEvent)
    (p : UserEvent × UserEvent) (dm : DataModel)
    (hp : p ∈ events.zip (decay now events).1)
    (helig : eligible now p.1 = true)
    (hdm : p.1.data_model = some dm) :
    p.2.data_model = some (dmOf (dm.reliability - 1)) := by
  rw [decay_row now events p hp, if_pos helig]
  unfold decayStep
  simp [hdm, dmOf]

/-- Witness for C2 (amended) at `evLinear` (reliability 8 becomes 7). -/
theorem decay_reliability_decrement_witness :
    (decayStep evLinear).data_model = some (dmOf 7) := by
  have h := decay_reliability_decrement 0 [evLinear] (evLinear, decayStep evLinear) (dmOf 8)
    (by decide) (by decide) (by decide)
  simpa using h

/-- C4 as stated is false: `create` on the FIXED event `evFixedNew`
(nonzero reliability, default null `next_decay`) sets a non-null
`next_decay`, so the created row violates the claimed invariant. -/
theorem dormancy_counterexample :
    create evFixedNew = some { evFixedNew with next_decay := some 3 } ∧
    (create evFixedNew).map dormancyInvariant = some false := by
  decide

/-- C4 (amended): after `create` with the default null `next_decay`
passed in, the inserted row's `next_decay` is null iff the linked data
model's reliability is 0 — the progression is not consulted, so a FIXED
event with nonzero reliability gets a non-null `next_decay`; after a
decay() call, a selected event's `next_decay` is null iff its data model
is absent or the decremented reliability is exactly 0. -/
theorem dormancy_after_operations :
    (∀ e dm e', e.data_model = some dm → e.next_decay = none →
      create e = some e' → (e'.next_decay = none ↔ dm.reliability = 0)) ∧
    (∀ (now : Int) (events : List UserEvent) (p : UserEvent × UserEvent),
      p ∈ events.zip (decay now events).1 → eligible now p.1 = true →
      (p.2.next_decay = none ↔
        (p.1.data_model = none ∨
          ∃ dm, p.1.data_model = some dm ∧ dm.reliability - 1 = 0))) := by
  constructor
  · intro e dm e' hdm hnd hcreate
    unfold create at hcreate
    rw [hdm] at hcreate
    by_cases hz : dm.reliability = 0
    · simp [hz] at hcreate
      subst hcreate
      simp [hnd, hz]
    · simp [hz] at hcreate
      subst hcreate
      simp [hz]
  · intro now events p hp helig
    rw [decay_row now events p hp, if_pos helig]
    rw [eligible_iff] at helig
    obtain ⟨hprog, t, ht, _⟩ := helig
    unfold decayStep
    cases hdm : p.1.data_model with
    | none => simp [hdm]
    | some dm =>
      by_cases hz : dm.reliability - 1 = 0
      · simp [hdm, hz]
      · by_cases hlin : p.1.decay_progression = DecayProgressionEnum.LINEAR
        · simp [hdm, hz, hlin, ht]
        · by_cases hinv : p.1.decay_progression = DecayProgressionEnum.INVERSE_EXPONENTIAL
          · simp [hdm, hz, hlin, hinv, ht]
          · exfalso
            cases hc : p.1.decay_progression <;> simp_all

/-- Witness for C4 (amended) at the LINEAR creation `evLinearNew`. -/
theorem dormancy_after_operations_witness :
    evLinearCreated.next_decay = none ↔ (dmOf 8).reliability = 0 :=
  dormancy_after_operations.1 evLinearNew (dmOf 8) evLinearCreated rfl rfl (by decide)

/-- C10: `visible_for_user` is a pure filter returning exactly the events
whose owner is the given user or — only when the user has an organization
membership — whose owner is a member of that same organization; for a
user with no membership only the user's own events survive. -/
theorem visible_for_user_spec (u : User) (events : List UserEvent) (e : UserEvent) :
    e ∈ visible_for_user u events ↔
      (e ∈ events ∧
        (e.user = u ∨
          (u.has_membership = true ∧ e.user.membership_org = u.membership_org))) := by
  unfold visible_for_user
  cases hm : u.has_membership with
  | false => simp [List.mem_filter]
  | true => simp [List.mem_filter]

/-- C9: both `matches` variants are classification-gated — the domain
variant returns an empty result unconditionally (for every regex
primitive) on a non-DOMAIN/non-URL analyzable and otherwise keeps exactly
the events whose `query` regex matches the name; the IP variant returns
empty on every non-IP analyzable and otherwise keeps exactly the events
whose inclusive `[start_ip, end_ip]` range contains the parsed IP
value. -/
theorem matches_classification_gate (regexMatch : String → String → Bool)
    (parseIP : String → Nat) (events : List UserDomainWildCardEvent)
    (ipEvents : List UserIPWildCardEvent) (a : Analyzable) :
    (a.classification ≠ Classification.DOMAIN →
      a.classification ≠ Classification.URL →
      domainMatches regexMatch events a = []) ∧
    ((a.classification = Classification.DOMAIN ∨
        a.classification = Classification.URL) →
      ∀ e, e ∈ domainMatches regexMatch events a ↔
        (e ∈ events ∧ regexMatch a.name e.query = true)) ∧
    (a.classification ≠ Classification.IP →
      ipMatches parseIP ipEvents a = []) ∧
    (a.classification = Classification.IP →
      ∀ e, e ∈ ipMatches parseIP ipEvents a ↔
        (e ∈ ipEvents ∧ e.start_ip ≤ parseIP a.name ∧
          parseIP a.name ≤ e.end_ip)) := by
  refine ⟨?_, ?_, ?_, ?_⟩
  · intro hd hu
    unfold domainMatches
    rw [if_neg]
    rintro (h | h)
    · exact hd h
    · exact hu h
  · intro hgate e
    unfold domainMatches
    rw [if_pos hgate, List.mem_filter]
  · intro hip
    unfold ipMatches
    rw [if_neg hip]
  · intro hip e
    unfold ipMatches
    rw [if_pos hip, List.mem_filter]
    simp

/-- Witness for C9: an IP-classified analyzable is rejected by the domain
matcher even under a regex primitive that matches everything. -/
theorem matches_classification_gate_witness :
    domainMatches (fun _ _ => true) [evDomainRule] anIP = [] :=
  (matches_classification_gate (fun _ _ => true) (fun _ => 0)
    [evDomainRule] [] anIP).1 (by decide) (by decide)

/-- C8: for both wildcard variants, the set of pre-existing analyzables
attached by `create` equals exactly the set of analyzables for which
`matches`, evaluated against the new rule alone, returns that rule — the
rule-to-analyzables direction agrees with the analyzable-to-rules
direction. -/
theorem wildcard_create_round_trip (regexMatch : String → String → Bool)
    (parseIP : String → Nat) (analyzables : List Analyzable)
    (ed : UserDomainWildCardEvent) (eip : UserIPWildCardEvent) :
    (∀ inst attached,
      domainCreate regexMatch analyzables ed = some (inst, attached) →
      ∀ a, a ∈ attached ↔
        (a ∈ analyzables ∧ domainMatches regexMatch [inst] a = [inst])) ∧
    (∀ inst attached,
      ipCreate parseIP analyzables eip = some (inst, attached) →
      ∀ a, a ∈ attached ↔
        (a ∈ analyzables ∧ ipMatches parseIP [inst] a = [inst])) := by
  constructor
  · intro inst attached hcreate a
    simp only [domainCreate, Option.map_eq_some'] at hcreate
    obtain ⟨base, _, hpair⟩ := hcreate
    injection hpair.symm with hinst hatt
    subst hinst
    subst hatt
    unfold domainFindNewAnalyzables domainMatches
    rw [List.mem_filter]
    by_cases hgate : a.classification = Classification.DOMAIN ∨
        a.classification = Classification.URL
    · by_cases hrm : regexMatch a.name ed.query = true
      · simp [hgate, hrm]
      · simp [hgate, hrm]
    · simp [hgate]
  · intro inst attached hcreate a
    simp only [ipCreate, Option.map_eq_some'] at hcreate
    obtain ⟨base, _, hpair⟩ := hcreate
    injection hpair.symm with hinst hatt
    subst hinst
    subst hatt
    unfold ipFindNewAnalyzables ipMatches
    rw [List.mem_filter]
    by_cases hgate : a.classification = Classification.IP
    · by_cases hlo : eip.start_ip ≤ parseIP a.name
      · by_cases hhi : parseIP a.name ≤ eip.end_ip
        · simp [hgate, hlo, hhi]
        · simp [hgate, hlo, hhi]
      · simp [hgate, hlo]
    · simp [hgate]

/-- Witness for C8: the domain rule `.*\.test.com` created after
`a.test.com` exists attaches exactly that analyzable, and `matches` for
that analyzable against the new rule returns exactly the rule. -/
theorem wildcard_create_round_trip_witness :
    anDomain ∈ [anDomain] ∧
    domainMatches regexMatchSample [evDomainRuleCreated] anDomain =
      [evDomainRuleCreated] :=
  ((wildcard_create_round_trip regexMatchSample (fun _ => 0) [anDomain]
      evDomainRule evIPRule).1
    evDomainRuleCreated [anDomain] (by decide) anDomain).mp (by decide)

/-- The boolean condition under which `read_configured_params` raises
for a parameter: required, unresolved for the user, and not saved by the
CI relaxation. -/
def paramRaises (stageCI : Bool) (p : ParamResolution) : Bool :=
  p.param.required && p.resolved_for_user.isNone &&
    (!stageCI || p.stored_value.isNone)

/-- The raising condition, unfolded into propositions. -/
theorem paramRaises_iff (stageCI : Bool) (p : ParamResolution) :
    paramRaises stageCI p = true ↔
      (p.param.required = true ∧ p.resolved_for_user = none ∧
        ¬ (stageCI = true ∧ p.stored_value.isSome = true)) := by
  unfold paramRaises
  cases hci : stageCI <;>
    cases hreq : p.param.required <;>
      cases hres : p.resolved_for_user <;>
        cases hst : p.stored_value <;> simp_all

/-- `read_configured_params` raises exactly when the list search for a
raising parameter succeeds, and the message names that parameter. -/
theorem read_configured_params_error_char (stageCI : Bool)
    (params : List ParamResolution) (m : String) :
    read_configured_params stageCI params = Except.error m ↔
      ∃ p, params.find? (paramRaises stageCI) = some p ∧
        m = "Required param " ++ p.param.name ++ " not found" := by
  unfold read_configured_params paramRaises
  cases hf : params.find? (fun p =>
      p.param.required && p.resolved_for_user.isNone &&
        (!stageCI || p.stored_value.isNone)) with
  | none => simp [hf]
  | some p => simp [hf, eq_comm]

/-- C5: `read_configured_params` raises an error naming the offending
parameter iff some required parameter has no value resolvable for the
user and the CI relaxation (flag active and some stored value present)
does not apply; non-required parameters never cause it to raise, and the
raised message always names such a required parameter. -/
theorem read_configured_params_errors (stageCI : Bool)
    (params : List ParamResolution) :
    ((∃ m, read_configured_params stageCI params = Except.error m) ↔
      ∃ p ∈ params, p.param.required = true ∧ p.resolved_for_user = none ∧
        ¬ (stageCI = true ∧ p.stored_value.isSome = true)) ∧
    (∀ m, read_configured_params stageCI params = Except.error m →
      ∃ p ∈ params, p.param.required = true ∧ p.resolved_for_user = none ∧
        ¬ (stageCI = true ∧ p.stored_value.isSome = true) ∧
        m = "Required param " ++ p.param.name ++ " not found") := by
  constructor
  · constructor
    · rintro ⟨m, hm⟩
      obtain ⟨p, hf, _⟩ := (read_configured_params_error_char stageCI params m).mp hm
      exact ⟨p, List.mem_of_find?_eq_some hf,
        (paramRaises_iff stageCI p).mp (List.find?_some hf)⟩
    · rintro ⟨p, hmem, hcond⟩
      cases hf : params.find? (paramRaises stageCI) with
      | none =>
        exact absurd ((paramRaises_iff stageCI p).mpr hcond)
          (List.find?_eq_none.mp hf p hmem)
      | some q =>
        exact ⟨"Required param " ++ q.param.name ++ " not found",
          (read_configured_params_error_char stageCI params _).mpr ⟨q, hf, rfl⟩⟩
  · intro m hm
    obtain ⟨p, hf, hmsg⟩ := (read_configured_params_error_char stageCI params m).mp hm
    exact ⟨p, List.mem_of_find?_eq_some hf,
      ((paramRaises_iff stageCI p).mp (List.find?_some hf)).1,
      ((paramRaises_iff stageCI p).mp (List.find?_some hf)).2.1,
      ((paramRaises_iff stageCI p).mp (List.find?_some hf)).2.2, hmsg⟩

/-- Witness for C5: a required parameter with no stored value raises a
message naming it, outside CI. -/
theorem read_configured_params_errors_witness :
    ∃ p ∈ [pReqMissing], p.param.required = true ∧ p.resolved_for_user = none ∧
      ¬ (false = true ∧ p.stored_value.isSome = true) ∧
      "Required param apikey not found" =
        "Required param " ++ p.param.name ++ " not found" :=
  (read_configured_params_errors false [pReqMissing]).2
    "Required param apikey not found" rfl

/-- `firstByPk` returns `none` only on the empty queryset. -/
theorem firstByPk_eq_none : ∀ (l : List Job), firstByPk l = none ↔ l = [] := by
  intro l
  cases l with
  | nil => simp [firstByPk]
  | cons j js =>
    unfold firstByPk
    cases firstByPk js with
    | none => simp
    | some r =>
      by_cases h : j.pk ≤ r.pk <;> simp [h]

/-- `firstByPk` returns an element of the queryset. -/
theorem firstByPk_mem : ∀ (l : List Job) (r : Job), firstByPk l = some r → r ∈ l := by
  intro l
  induction l with
  | nil => intro r h; cases h
  | cons j js ih =>
    intro r h
    cases hf : firstByPk js with
    | none =>
      simp only [firstByPk, hf] at h
      injection h with h
      subst h
      exact List.mem_cons_self _ _
    | some q =>
      simp only [firstByPk, hf] at h
      by_cases hle : j.pk ≤ q.pk
      · rw [if_pos hle] at h
        injection h with h
        subst h
        exact List.mem_cons_self _ _
      · rw [if_neg hle] at h
        injection h with h
        subst h
        exact List.mem_cons_of_mem j (ih _ hf)

/-- `firstByPk` returns an element with the smallest primary key. -/
theorem firstByPk_min : ∀ (l : List Job) (r : Job), firstByPk l = some r →
    ∀ j ∈ l, r.pk ≤ j.pk := by
  intro l
  induction l with
  | nil => intro r h; cases h
  | cons x xs ih =>
    intro r h j hj
    cases hf : firstByPk xs with
    | none =>
      simp only [firstByPk, hf] at h
      injection h with h
      subst h
      rw [firstByPk_eq_none] at hf
      subst hf
      rcases List.mem_cons.mp hj with rfl | hj
      · exact Nat.le_refl _
      · cases hj
    | some q =>
      simp only [firstByPk, hf] at h
      rcases List.mem_cons.mp hj with heq | hj
      · rw [heq]
        by_cases hle : x.pk ≤ q.pk
        · rw [if_pos hle] at h
          injection h with h
          subst h
          exact Nat.le_refl _
        · rw [if_neg hle] at h
          injection h with h
          subst h
          exact Nat.le_of_lt (Nat.lt_of_not_le hle)
      · have hq := ih q hf j hj
        by_cases hle : x.pk ≤ q.pk
        · rw [if_pos hle] at h
          injection h with h
          subst h
          exact Nat.le_trans hle hq
        · rw [if_neg hle] at h
          injection h with h
          subst h
          exact hq

/-- C6: on a multiple-roots error from the tree library, `get_root` does
not propagate it: it logs exactly one warning containing the original
exception text and returns the job with the smallest primary key among
the stored jobs sharing the path prefix — whenever such a job exists at
all, and in particular the unique real root whenever it is the
earliest-created (smallest-pk) job of the lineage. -/
theorem get_root_fallback (jobs : List Job) (job : Job) (msg : String) :
    (get_root jobs job (Except.error msg)).warnings =
      ["Tree Integrity Error: " ++ msg] ∧
    (∀ r, (get_root jobs job (Except.error msg)).root = some r →
      r ∈ jobs ∧ (job.path.take 1).isPrefixOf r.path = true ∧
      ∀ j ∈ jobs, (job.path.take 1).isPrefixOf j.path = true →
        r.pk ≤ j.pk) ∧
    ((∃ j ∈ jobs, (job.path.take 1).isPrefixOf j.path = true) →
      ∃ r, (get_root jobs job (Except.error msg)).root = some r) ∧
    (∀ r0 ∈ jobs, (job.path.take 1).isPrefixOf r0.path = true →
      Job.is_root r0 = true →
      (∀ j ∈ jobs, (job.path.take 1).isPrefixOf j.path = true →
        j ≠ r0 → r0.pk < j.pk) →
      (get_root jobs job (Except.error msg)).root = some r0) := by
  have hroot : (get_root jobs job (Except.error msg)).root =
      firstByPk (jobs.filter
        (fun j => (job.path.take 1).isPrefixOf j.path)) := rfl
  refine ⟨rfl, ?_, ?_, ?_⟩
  · intro r hr
    rw [hroot] at hr
    have hmem := firstByPk_mem _ r hr
    have hmin := firstByPk_min _ r hr
    rw [List.mem_filter] at hmem
    refine ⟨hmem.1, hmem.2, ?_⟩
    intro j hj hpre
    exact hmin j (List.mem_filter.mpr ⟨hj, hpre⟩)
  · rintro ⟨j, hj, hpre⟩
    rw [hroot]
    cases hf : firstByPk (jobs.filter
        (fun j => (job.path.take 1).isPrefixOf j.path)) with
    | none =>
      rw [firstByPk_eq_none] at hf
      have hjmem : j ∈ jobs.filter
          (fun j => (job.path.take 1).isPrefixOf j.path) :=
        List.mem_filter.mpr ⟨hj, hpre⟩
      rw [hf] at hjmem
      cases hjmem
    | some r => exact ⟨r, rfl⟩
  · intro r0 hr0 hpre _ hmin0
    rw [hroot]
    have hr0mem : r0 ∈ jobs.filter
        (fun j => (job.path.take 1).isPrefixOf j.path) :=
      List.mem_filter.mpr ⟨hr0, hpre⟩
    cases hf : firstByPk (jobs.filter
        (fun j => (job.path.take 1).isPrefixOf j.path)) with
    | none =>
      rw [firstByPk_eq_none] at hf
      rw [hf] at hr0mem
      cases hr0mem
    | some r =>
      have hrmem := firstByPk_mem _ r hf
      have hrmin := firstByPk_min _ r hf r0 hr0mem
      rw [List.mem_filter] at hrmem
      by_cases heq : r = r0
      · rw [heq]
      · exact absurd (Nat.lt_of_lt_of_le
          (hmin0 r hrmem.1 hrmem.2 heq) hrmin) (Nat.lt_irrefl _)

/-- Witness for C6 on a two-job lineage with a simulated multiple-roots
error: the fallback returns the real root. -/
theorem get_root_fallback_witness :
    (get_root [rootJob, childJob] childJob
      (Except.error "Multiple roots found")).root = some rootJob :=
  (get_root_fallback [rootJob, childJob] childJob
      "Multiple roots found").2.2.2 rootJob (by decide) (by decide) (by decide)
    (by decide)

/-- C7: signature generation produces one outcome per reached config —
never a silent early stop — raising the warning-class skip signal for a
disabled config, the runtime-error-class defect for an enabled config
not runnable for the job's user, and a signature otherwise; the two
error classes are distinct. -/
theorem get_signatures_outcomes (job : JobRef) (configs : List PluginConfigRow) :
    (get_signatures job configs).length = configs.length ∧
    (∀ p ∈ configs.zip (get_signatures job configs),
      (p.1.disabled = true →
        p.2 = Except.error (SigError.runtimeWarning (p.1.name ++ " is disabled"))) ∧
      (p.1.disabled = false → p.1.runnable = false →
        p.2 = Except.error (SigError.runtimeError (p.1.name ++ " is not runnable"))) ∧
      (p.1.disabled = false → p.1.runnable = true →
        p.2 = Except.ok
          { configName := p.1.name, userId := job.userId, jobId := job.jobId })) ∧
    (∀ m m', SigError.runtimeWarning m ≠ SigError.runtimeError m') := by
  refine ⟨by simp [get_signatures], ?_, by intro m m' h; cases h⟩
  intro p hp
  have hp2 : p ∈ configs.zip (configs.map (fun c =>
    if c.disabled then
      Except.error (SigError.runtimeWarning (c.name ++ " is disabled"))
    else if !c.runnable then
      Except.error (SigError.runtimeError (c.name ++ " is not runnable"))
    else
      Except.ok { configName := c.name, userId := job.userId, jobId := job.jobId })) := hp
  have h2 := zip_map_snd (fun c =>
    if c.disabled then
      Except.error (SigError.runtimeWarning (c.name ++ " is disabled"))
    else if !c.runnable then
      Except.error (SigError.runtimeError (c.name ++ " is not runnable"))
    else
      Except.ok { configName := c.name, userId := job.userId, jobId := job.jobId })
    configs p hp2
  refine ⟨?_, ?_, ?_⟩
  · intro hdis
    rw [h2]
    simp [hdis]
  · intro hdis hrun
    rw [h2]
    simp [hdis, hrun]
  · intro hdis hrun
    rw [h2]
    simp [hdis, hrun]

/-- Witness for C7: the entry generated for a disabled config is the
warning-class skip signal. -/
theorem get_signatures_outcomes_witness :
    ((cfgDisabled,
        (Except.error (SigError.runtimeWarning "viz is disabled")
          : Except SigError Signature))).2 =
      Except.error (SigError.runtimeWarning (cfgDisabled.name ++ " is disabled")) :=
  (((get_signatures_outcomes sampleJobRef [cfgDisabled]).2.1 _
    (by exact List.mem_singleton.mpr rfl)).1 (by decide))

end IntelOwl
